import Mathlib

/-!
Verification development for the ERA reliability-monitoring dashboard
(src/data.py).  The file shallowly embeds the parts of the script that the
specification's claims speak about:

* `clean_feeder_name` — feeder-name canonicalisation (strip, NFKD,
  NBSP-replacement, whitespace collapsing, title-casing);
* the per-worksheet normalisation (duration derivation, date and week
  columns, numeric coercion results);
* `compute_metrics` — the SAIFI/SAIDI/CAIDI aggregation;
* the worksheet loop and the `pd.concat` step.

Modelling conventions, stated once here:

* Characters are Unicode codepoints (`Nat`); a Python `str` is a `List Nat`.
  The Unicode tables (whitespace, case maps, NFKD decompositions) are
  restricted to the characters exercised by this program: ASCII, the
  no-break space U+00A0 and a few compatibility characters.  All case maps
  are the ASCII ones.
* Floating point numbers are modelled by `ℚ`.  A pandas missing value
  (NaN/NaT) is `Option.none`; pandas' NaN-skipping `sum` and `nunique` are
  modelled explicitly (`nansum`, `nunique`).  Rational division in Lean is
  total with `q / 0 = 0`; in the source the corresponding float division
  can produce NaN/±inf when a guard does not rule the zero denominator out
  (this matters only for `CAIDI` when the customer-count sum is `0` while
  `nunique > 0`; no theorem below asserts a value of that expression in
  that regime).
* Timestamps are proleptic-Gregorian civil datetimes (year, month, day,
  second-of-day); `pd.to_datetime`'s string parsing itself is out of scope,
  its *result* (a timestamp or NaT) is the input of the model.
-/

namespace SpecProof

/-- A Python string: the list of its characters' Unicode codepoints. -/
abbrev PyStr := List Nat

/-- Codepoints of a Lean string literal, used to state concrete examples. -/
def strToCP (s : String) : PyStr := s.toList.map Char.toNat

/-- Python `str.isspace` restricted to the characters of this development:
ASCII whitespace (space, tab, LF, VT, FF, CR) plus U+00A0 NO-BREAK SPACE.
`str.strip` and `str.split()` treat exactly these as whitespace. -/
def pyIsSpace (c : Nat) : Bool :=
  c == 32 || c == 9 || c == 10 || c == 11 || c == 12 || c == 13 || c == 160

/-- ASCII uppercase letter. -/
def isUpperCp (c : Nat) : Bool := 65 ≤ c && c ≤ 90

/-- ASCII lowercase letter. -/
def isLowerCp (c : Nat) : Bool := 97 ≤ c && c ≤ 122

/-- Cased character (ASCII model): exactly the letters the title-casing of
`str.title` converts. -/
def isAlphaCp (c : Nat) : Bool := isUpperCp c || isLowerCp c

/-- ASCII `str.lower` on one character. -/
def toLowerCp (c : Nat) : Nat := if isUpperCp c then c + 32 else c

/-- ASCII `str.upper` on one character. -/
def toUpperCp (c : Nat) : Nat := if isLowerCp c then c - 32 else c

/-- The NFKD decomposition of one character, restricted to the modelled
character set: U+00A0 decomposes to a space, U+FB01/U+FB02 (ﬁ, ﬂ) to their
letter sequences, U+00B2/U+00B3 (², ³) to digits; every other modelled
character is NFKD-fixed. -/
def nfkdChar (c : Nat) : List Nat :=
  if c = 160 then [32]
  else if c = 64257 then [102, 105]
  else if c = 64258 then [102, 108]
  else if c = 178 then [50]
  else if c = 179 then [51]
  else [c]

/-- `unicodedata.normalize("NFKD", s)`. -/
def pyNFKD (s : PyStr) : PyStr := (s.map nfkdChar).flatten

/-- `s.replace('\xa0', ' ')`. -/
def pyReplaceNbsp (s : PyStr) : PyStr := s.map (fun c => if c = 160 then 32 else c)

/-- One step of the whitespace splitter: a whitespace character closes the
current word (possibly empty); any other character is prepended to it. -/
def stepSplit (c : Nat) (acc : List PyStr) : List PyStr :=
  if pyIsSpace c then [] :: acc
  else
    match acc with
    | [] => [[c]]
    | w :: ws => (c :: w) :: ws

/-- Raw right fold of `stepSplit`: the maximal whitespace-free chunks of `s`,
empty chunks included. -/
def rawSplit (s : PyStr) : List PyStr := s.foldr stepSplit []

/-- Python `s.split()` with no argument: split on whitespace runs, dropping
empty words. -/
def pySplit (s : PyStr) : List PyStr := (rawSplit s).filter (fun w => !w.isEmpty)

/-- Head word of a word list (`[]` when there is none). -/
def headW : List PyStr → PyStr
  | [] => []
  | w :: _ => w

/-- Word list behind the head word. -/
def tailW : List PyStr → List PyStr
  | [] => []
  | _ :: ws => ws

/-- Python `' '.join(ws)`. -/
def pyJoinSp : List PyStr → PyStr
  | [] => []
  | [w] => w
  | w :: ws => w ++ 32 :: pyJoinSp ws

/-- `s.strip()`: drop leading and trailing whitespace. -/
def pyStrip (s : PyStr) : PyStr :=
  ((s.dropWhile pyIsSpace).reverse.dropWhile pyIsSpace).reverse

/-- One character of `str.title`: a cased character is uppercased at a word
start (previous character not cased) and lowercased otherwise; uncased
characters pass through. -/
def titleChar (prevCased : Bool) (c : Nat) : Nat :=
  if isAlphaCp c then (if prevCased then toLowerCp c else toUpperCp c) else c

/-- The traversal of `str.title`, threading whether the previous original
character was cased. -/
def pyTitleAux : Bool → PyStr → PyStr
  | _, [] => []
  | b, c :: cs => titleChar b c :: pyTitleAux (isAlphaCp c) cs

/-- Python `s.title()`. -/
def pyTitle (s : PyStr) : PyStr := pyTitleAux false s

/-- `clean_feeder_name` from src/data.py lines 44-49:
`str(name).strip()`, NFKD normalisation, `replace('\xa0', ' ')`,
`' '.join(name.split())`, `.title()`. -/
def clean_feeder_name (s : PyStr) : PyStr :=
  pyTitle (pyJoinSp (pySplit (pyReplaceNbsp (pyNFKD (pyStrip s)))))

/-- A civil timestamp (proleptic Gregorian), the model of a non-NaT
`pd.Timestamp`. -/
structure Timestamp where
  year : Int
  month : Nat
  day : Nat
  secOfDay : Nat
deriving DecidableEq

/-- Days since 1970-01-01 of a civil date (Howard Hinnant's algorithm,
proleptic Gregorian). -/
def daysFromCivil (y : Int) (m d : Nat) : Int :=
  let y2 : Int := if m ≤ 2 then y - 1 else y
  let era : Int := y2 / 400
  let yoe : Int := y2 - era * 400
  let mp : Nat := (m + 9) % 12
  let doy : Nat := (153 * mp + 2) / 5 + d - 1
  let doe : Int := yoe * 365 + yoe / 4 - yoe / 100 + doy
  era * 146097 + doe - 719468

/-- Seconds since the epoch of a timestamp. -/
def epochSeconds (t : Timestamp) : Int :=
  daysFromCivil t.year t.month t.day * 86400 + t.secOfDay

/-- The `Date` column value derived from a timestamp (`.dt.date`). -/
def dateOf (t : Timestamp) : Int × Nat × Nat := (t.year, t.month, t.day)

/-- Day of week with Sunday = 0 (1970-01-01 was a Thursday). -/
def dowSun0 (t : Timestamp) : Int :=
  (daysFromCivil t.year t.month t.day + 4) % 7

/-- Ordinal day of the year (Jan 1 = 1). -/
def dayOfYear (t : Timestamp) : Int :=
  daysFromCivil t.year t.month t.day - daysFromCivil t.year 1 1 + 1

/-- `strftime`'s `%U` week number: Sunday-first weeks, the days before the
first Sunday of the year are week 0. -/
def usWeekNum (t : Timestamp) : Int :=
  (dayOfYear t + 6 - dowSun0 t) / 7

/-- Zero-pad a (nonnegative, two-digit) number to two digits. -/
def pad2 (n : Int) : String := if n < 10 then "0" ++ toString n else toString n

/-- The `Week` column value of src/data.py line 92:
`strftime("%Y-W%U")` — calendar year, dash, W, zero-padded `%U` week. -/
def strftimeYW (t : Timestamp) : String :=
  toString t.year ++ "-W" ++ pad2 (usWeekNum t)

/-- Modelled from the spec: helper of ISO 8601 week numbering, the weekday
shift of the year `y` (the spec's week label is said to "follow ISO week
numbering", which src/data.py does not implement; this and the following
definitions are the spec-side reference). -/
def isoP (y : Int) : Int := (y + y / 4 - y / 100 + y / 400) % 7

/-- Modelled from the spec: number of ISO weeks in year `y` (53 for long
years, else 52). -/
def isoWeeksInYear (y : Int) : Int :=
  if isoP y = 4 ∨ isoP (y - 1) = 3 then 53 else 52

/-- Modelled from the spec: ISO day of week, Monday = 1 … Sunday = 7. -/
def isoDow (t : Timestamp) : Int :=
  (daysFromCivil t.year t.month t.day + 3) % 7 + 1

/-- Modelled from the spec: the ISO week-date (year, week) pair of a
timestamp per ISO 8601. -/
def isoWeekPair (t : Timestamp) : Int × Int :=
  let w : Int := (dayOfYear t - isoDow t + 10) / 7
  if w < 1 then (t.year - 1, isoWeeksInYear (t.year - 1))
  else if isoWeeksInYear t.year < w then (t.year + 1, 1)
  else (t.year, w)

/-- Modelled from the spec: the ISO-week label in the same rendering as the
code's `%Y-W%U` label, for comparison. -/
def isoWeekLabel (t : Timestamp) : String :=
  toString (isoWeekPair t).1 ++ "-W" ++ pad2 (isoWeekPair t).2

/-- A raw worksheet record after type coercion: the fields of one row that
the pipeline reads.  `pd.to_datetime(..., errors="coerce")` and
`pd.to_numeric(..., errors="coerce")` yield a value or a missing marker;
the model takes that coercion result (`Option`) as input. -/
structure RawRec where
  feederName : PyStr
  interruptionTime : Option Timestamp
  restorationTime : Option Timestamp
  customerNo : Option ℚ
  elapsedTime : Option ℚ
  faultCategory : Option String
deriving DecidableEq

/-- A normalised row of `df_all`: the columns compute_metrics and the charts
read. -/
structure Row where
  feederName : PyStr
  month : String
  interruptionTime : Option Timestamp
  restorationTime : Option Timestamp
  durationHr : Option ℚ
  customerNo : Option ℚ
  elapsedTime : Option ℚ
  faultCategory : Option String
  date : Option (Int × Nat × Nat)
  week : Option String
deriving DecidableEq

/-- `Duration (hr)` of src/data.py line 84:
`(Restoration Time - Interruption Time).dt.total_seconds() / 3600`,
NaN when either timestamp is NaT. -/
def durationHrOf (it rt : Option Timestamp) : Option ℚ :=
  match it, rt with
  | some a, some b => some (((epochSeconds b - epochSeconds a : Int) : ℚ) / 3600)
  | _, _ => none

/-- The per-row part of the worksheet loop (src/data.py lines 76-96): clean
the feeder name, tag the month, derive duration, date and week columns
(each missing when the interruption timestamp is NaT). -/
def normalizeRow (month : String) (r : RawRec) : Row :=
  { feederName := clean_feeder_name r.feederName
    month := month
    interruptionTime := r.interruptionTime
    restorationTime := r.restorationTime
    durationHr := durationHrOf r.interruptionTime r.restorationTime
    customerNo := r.customerNo
    elapsedTime := r.elapsedTime
    faultCategory := r.faultCategory
    date := r.interruptionTime.map dateOf
    week := r.interruptionTime.map strftimeYW }

/-- One worksheet's DataFrame after the loop body. -/
def processWorksheet (month : String) (data : List RawRec) : List Row :=
  data.map (normalizeRow month)

/-- The worksheet loop plus `pd.concat(all_data, ignore_index=True)`
(src/data.py lines 69-100): a worksheet with no records is skipped
(`if not data: continue`), and `pd.concat` raises
`ValueError("No objects to concatenate")` when `all_data` is empty. -/
def load_all (wss : List (String × List RawRec)) : Except String (List Row) :=
  let all_data := wss.filterMap fun ws =>
    if ws.2.isEmpty then none else some (processWorksheet ws.1 ws.2)
  if all_data.isEmpty then Except.error "No objects to concatenate"
  else Except.ok all_data.flatten

/-- Pandas `Series.sum()`: NaN entries are skipped, the empty sum is `0`. -/
def nansum (l : List (Option ℚ)) : ℚ := (l.filterMap id).sum

/-- Pandas `Series.nunique()`: the number of distinct non-NaN values. -/
def nunique (l : List (Option ℚ)) : Nat := (l.filterMap id).dedup.length

/-- One entry of the elementwise product
`g["Duration (hr)"] * g["Customer No"]` (NaN-propagating). -/
def prodDC (r : Row) : Option ℚ :=
  match r.durationHr, r.customerNo with
  | some d, some c => some (d * c)
  | _, _ => none

/-- One aggregation result row's values. -/
structure Metrics where
  SAIDI : ℚ
  SAIFI : ℚ
  CAIDI : ℚ
deriving DecidableEq

/-- `(g["Duration (hr)"] * g["Customer No"]).sum()` on a group. -/
def durCustSum (g : List Row) : ℚ := nansum (g.map prodDC)

/-- `g["Customer No"].sum()` on a group. -/
def custSum (g : List Row) : ℚ := nansum (g.map fun r => r.customerNo)

/-- `g["Customer No"].nunique()` on a group. -/
def custDistinct (g : List Row) : Nat := nunique (g.map fun r => r.customerNo)

/-- The body of the `groupby(...).apply` lambda of `compute_metrics`
(src/data.py lines 54-63), evaluated on one group `g`:
`SAIDI = Σ(dur·cust)/Σcust` guarded by `Σcust > 0`,
`SAIFI = len(g)/nunique(cust)` guarded by `nunique > 0`,
`CAIDI = (Σ(dur·cust)/Σcust) / (len(g)/nunique)` guarded by
`nunique > 0 and len(g) > 0`. -/
def metricsOfGroup (g : List Row) : Metrics :=
  { SAIDI := if 0 < custSum g then durCustSum g / custSum g else 0
    SAIFI := if 0 < custDistinct g then (g.length : ℚ) / (custDistinct g : ℚ) else 0
    CAIDI :=
      if 0 < custDistinct g ∧ 0 < g.length then
        (durCustSum g / custSum g) / ((g.length : ℚ) / (custDistinct g : ℚ))
      else 0 }

/-- The group of `rows` at key value `k`. -/
def groupOf {κ : Type} [DecidableEq κ]
    (key : Row → Option κ) (rows : List Row) (k : κ) : List Row :=
  rows.filter fun r => decide (key r = some k)

/-- The distinct group-key values present in `rows` (rows with a missing key
value are dropped, as pandas `groupby` drops NaN keys). -/
def keysOf {κ : Type} [DecidableEq κ]
    (key : Row → Option κ) (rows : List Row) : List κ :=
  (rows.filterMap key).dedup

/-- `compute_metrics(df, group_cols)` (src/data.py lines 51-66): group the
rows by a key and apply `metricsOfGroup` per group.  Pandas orders the
result by sorted key; the claims are insensitive to row order, and the
model uses first-occurrence order of the keys. -/
def compute_metrics {κ : Type} [DecidableEq κ]
    (key : Row → Option κ) (rows : List Row) : List (κ × Metrics) :=
  (keysOf key rows).map fun k => (k, metricsOfGroup (groupOf key rows k))

/-- Group key of `compute_metrics(df_all, ["Feeder Name", "Month"])`. -/
def monthKey (r : Row) : Option (PyStr × String) :=
  some (r.feederName, r.month)

/-- Group key of `compute_metrics(df_all, ["Feeder Name", "Month", "Date"])`;
missing when the `Date` column is NaT, and pandas drops such rows. -/
def dateKey (r : Row) : Option (PyStr × String × (Int × Nat × Nat)) :=
  r.date.map fun d => (r.feederName, r.month, d)

/-- Group key of `compute_metrics(df_all, ["Feeder Name", "Month", "Week"])`;
missing when the `Week` column is NaN. -/
def weekKey (r : Row) : Option (PyStr × String × String) :=
  r.week.map fun w => (r.feederName, r.month, w)

/-- Month label used by the concrete examples. -/
def janStr : String := "Jan"

/-- Midnight, 2023-01-01 (a Sunday). -/
def ts0 : Timestamp := ⟨2023, 1, 1, 0⟩

/-- 02:00, 2023-01-01. -/
def ts2h : Timestamp := ⟨2023, 1, 1, 7200⟩

/-- 06:00, 2023-01-01. -/
def ts6h : Timestamp := ⟨2023, 1, 1, 21600⟩

/-- A well-formed record: 2 h outage, 10 customers. -/
def recGood : RawRec :=
  { feederName := strToCP "A"
    interruptionTime := some ts0
    restorationTime := some ts2h
    customerNo := some 10
    elapsedTime := some 120
    faultCategory := some "Earth Fault" }

/-- A second well-formed record on the same feeder: 6 h outage, the same
customer count 10. -/
def recGood2 : RawRec :=
  { feederName := strToCP "A"
    interruptionTime := some ts0
    restorationTime := some ts6h
    customerNo := some 10
    elapsedTime := some 360
    faultCategory := some "Earth Fault" }

/-- A record whose `Customer No` failed numeric coercion (NaN), with NaN
elapsed time and missing fault category. -/
def recNullCust : RawRec :=
  { feederName := strToCP "A"
    interruptionTime := some ts0
    restorationTime := some ts2h
    customerNo := none
    elapsedTime := none
    faultCategory := none }

/-- A record with a negative parsed customer count (nothing in the source
excludes it). -/
def recNegCust : RawRec :=
  { feederName := strToCP "A"
    interruptionTime := some ts0
    restorationTime := some ts2h
    customerNo := some (-5)
    elapsedTime := some 120
    faultCategory := some "Earth Fault" }

/-- A record whose restoration timestamp precedes its interruption
timestamp. -/
def recNegDur : RawRec :=
  { feederName := strToCP "A"
    interruptionTime := some ts2h
    restorationTime := some ts0
    customerNo := some 5
    elapsedTime := some 120
    faultCategory := some "Earth Fault" }

/-- The feeder-month group key of the concrete records above. -/
def keyA : PyStr × String := (strToCP "A", janStr)

/-- The normalised form of `recGood`. -/
def rowGood : Row :=
  { feederName := strToCP "A"
    month := janStr
    interruptionTime := some ts0
    restorationTime := some ts2h
    durationHr := some 2
    customerNo := some 10
    elapsedTime := some 120
    faultCategory := some "Earth Fault"
    date := some (2023, 1, 1)
    week := some "2023-W01" }

/-- The normalised form of `recGood2`. -/
def rowGood2 : Row :=
  { feederName := strToCP "A"
    month := janStr
    interruptionTime := some ts0
    restorationTime := some ts6h
    durationHr := some 6
    customerNo := some 10
    elapsedTime := some 360
    faultCategory := some "Earth Fault"
    date := some (2023, 1, 1)
    week := some "2023-W01" }

/-- The normalised form of `recNullCust`. -/
def rowNullCust : Row :=
  { feederName := strToCP "A"
    month := janStr
    interruptionTime := some ts0
    restorationTime := some ts2h
    durationHr := some 2
    customerNo := none
    elapsedTime := none
    faultCategory := none
    date := some (2023, 1, 1)
    week := some "2023-W01" }

/-- The normalised form of `recNegCust`. -/
def rowNegCust : Row :=
  { feederName := strToCP "A"
    month := janStr
    interruptionTime := some ts0
    restorationTime := some ts2h
    durationHr := some 2
    customerNo := some (-5)
    elapsedTime := some 120
    faultCategory := some "Earth Fault"
    date := some (2023, 1, 1)
    week := some "2023-W01" }

/-- The normalised form of `recNegDur`: its derived duration is `-2` h. -/
def rowNegDur : Row :=
  { feederName := strToCP "A"
    month := janStr
    interruptionTime := some ts2h
    restorationTime := some ts0
    durationHr := some (-2)
    customerNo := some 5
    elapsedTime := some 120
    faultCategory := some "Earth Fault"
    date := some (2023, 1, 1)
    week := some "2023-W01" }

/-! ### Evaluation lemmas for the concrete records -/

theorem fm_id_some (a : ℚ) (l : List (Option ℚ)) :
    List.filterMap id (some a :: l) = a :: List.filterMap id l := by
  simp

theorem fm_id_none (l : List (Option ℚ)) :
    List.filterMap id ((none : Option ℚ) :: l) = List.filterMap id l := by
  simp

theorem fm_id_nil : List.filterMap id ([] : List (Option ℚ)) = [] := rfl

theorem clean_A : clean_feeder_name (strToCP "A") = strToCP "A" := by decide

theorem date_ts0 : dateOf ts0 = (2023, 1, 1) := by decide

theorem date_ts2h : dateOf ts2h = (2023, 1, 1) := by decide

theorem week_ts0 : strftimeYW ts0 = "2023-W01" := by decide

theorem week_ts2h : strftimeYW ts2h = "2023-W01" := by decide

theorem dur_ts0_ts2h : durationHrOf (some ts0) (some ts2h) = some 2 := by
  show some (((epochSeconds ts2h - epochSeconds ts0 : Int) : ℚ) / 3600) = some 2
  rw [show epochSeconds ts2h - epochSeconds ts0 = (7200 : Int) from by decide]
  norm_num

theorem dur_ts0_ts6h : durationHrOf (some ts0) (some ts6h) = some 6 := by
  show some (((epochSeconds ts6h - epochSeconds ts0 : Int) : ℚ) / 3600) = some 6
  rw [show epochSeconds ts6h - epochSeconds ts0 = (21600 : Int) from by decide]
  norm_num

theorem dur_ts2h_ts0 : durationHrOf (some ts2h) (some ts0) = some (-2) := by
  show some (((epochSeconds ts0 - epochSeconds ts2h : Int) : ℚ) / 3600) = some (-2)
  rw [show epochSeconds ts0 - epochSeconds ts2h = (-7200 : Int) from by decide]
  norm_num

theorem normalizeRow_recGood : normalizeRow janStr recGood = rowGood := by
  simp [normalizeRow, recGood, rowGood, clean_A, dur_ts0_ts2h, date_ts0, week_ts0]

theorem normalizeRow_recGood2 : normalizeRow janStr recGood2 = rowGood2 := by
  simp [normalizeRow, recGood2, rowGood2, clean_A, dur_ts0_ts6h, date_ts0, week_ts0]

theorem normalizeRow_recNullCust : normalizeRow janStr recNullCust = rowNullCust := by
  simp [normalizeRow, recNullCust, rowNullCust, clean_A, dur_ts0_ts2h, date_ts0, week_ts0]

theorem normalizeRow_recNegCust : normalizeRow janStr recNegCust = rowNegCust := by
  simp [normalizeRow, recNegCust, rowNegCust, clean_A, dur_ts0_ts2h, date_ts0, week_ts0]

theorem normalizeRow_recNegDur : normalizeRow janStr recNegDur = rowNegDur := by
  simp [normalizeRow, recNegDur, rowNegDur, clean_A, dur_ts2h_ts0, date_ts2h, week_ts2h]

theorem metrics_good : metricsOfGroup [rowGood] = Metrics.mk 2 1 2 := by
  norm_num [metricsOfGroup, custSum, durCustSum, custDistinct, nansum, nunique,
    prodDC, rowGood, List.dedup_cons_of_not_mem, fm_id_some, fm_id_none, fm_id_nil]

theorem metrics_negCust : metricsOfGroup [rowNegCust] = Metrics.mk 0 1 2 := by
  norm_num [metricsOfGroup, custSum, durCustSum, custDistinct, nansum, nunique,
    prodDC, rowNegCust, List.dedup_cons_of_not_mem, fm_id_some, fm_id_none, fm_id_nil]

theorem metrics_nullCust : metricsOfGroup [rowNullCust] = Metrics.mk 0 0 0 := by
  norm_num [metricsOfGroup, custSum, durCustSum, custDistinct, nansum, nunique,
    prodDC, rowNullCust, fm_id_some, fm_id_none, fm_id_nil]

theorem metrics_goodNull : metricsOfGroup [rowGood, rowNullCust] = Metrics.mk 2 2 1 := by
  norm_num [metricsOfGroup, custSum, durCustSum, custDistinct, nansum, nunique,
    prodDC, rowGood, rowNullCust, List.dedup_cons_of_not_mem, fm_id_some, fm_id_none,
    fm_id_nil]

theorem metrics_goodGood2 : metricsOfGroup [rowGood, rowGood2] = Metrics.mk 4 2 2 := by
  norm_num [metricsOfGroup, custSum, durCustSum, custDistinct, nansum, nunique,
    prodDC, rowGood, rowGood2, List.dedup_cons_of_mem, List.dedup_cons_of_not_mem,
    fm_id_some, fm_id_none, fm_id_nil]

theorem metrics_negDur : metricsOfGroup [rowNegDur] = Metrics.mk (-2) 1 (-2) := by
  norm_num [metricsOfGroup, custSum, durCustSum, custDistinct, nansum, nunique,
    prodDC, rowNegDur, List.dedup_cons_of_not_mem, fm_id_some, fm_id_none, fm_id_nil]

theorem compute_metrics_monthKey_one (r : Row) :
    compute_metrics monthKey [r] = [((r.feederName, r.month), metricsOfGroup [r])] := by
  simp [compute_metrics, keysOf, groupOf, monthKey, List.dedup_cons_of_not_mem]

theorem compute_metrics_monthKey_two (r s : Row)
    (hf : s.feederName = r.feederName) (hm : s.month = r.month) :
    compute_metrics monthKey [r, s] =
      [((r.feederName, r.month), metricsOfGroup [r, s])] := by
  simp [compute_metrics, keysOf, groupOf, monthKey, hf, hm, List.dedup_cons_of_mem,
    List.dedup_cons_of_not_mem]

theorem eval_good :
    compute_metrics monthKey (processWorksheet janStr [recGood]) =
      [(keyA, Metrics.mk 2 1 2)] := by
  rw [show processWorksheet janStr [recGood] = [rowGood] from by
        simp [processWorksheet, normalizeRow_recGood],
    compute_metrics_monthKey_one, metrics_good]
  rfl

theorem eval_negCust :
    compute_metrics monthKey (processWorksheet janStr [recNegCust]) =
      [(keyA, Metrics.mk 0 1 2)] := by
  rw [show processWorksheet janStr [recNegCust] = [rowNegCust] from by
        simp [processWorksheet, normalizeRow_recNegCust],
    compute_metrics_monthKey_one, metrics_negCust]
  rfl

theorem eval_nullCust :
    compute_metrics monthKey (processWorksheet janStr [recNullCust]) =
      [(keyA, Metrics.mk 0 0 0)] := by
  rw [show processWorksheet janStr [recNullCust] = [rowNullCust] from by
        simp [processWorksheet, normalizeRow_recNullCust],
    compute_metrics_monthKey_one, metrics_nullCust]
  rfl

theorem eval_goodNull :
    compute_metrics monthKey (processWorksheet janStr [recGood, recNullCust]) =
      [(keyA, Metrics.mk 2 2 1)] := by
  rw [show processWorksheet janStr [recGood, recNullCust] = [rowGood, rowNullCust] from by
        simp [processWorksheet, normalizeRow_recGood, normalizeRow_recNullCust],
    compute_metrics_monthKey_two rowGood rowNullCust rfl rfl, metrics_goodNull]
  rfl

theorem eval_goodGood2 :
    compute_metrics monthKey (processWorksheet janStr [recGood, recGood2]) =
      [(keyA, Metrics.mk 4 2 2)] := by
  rw [show processWorksheet janStr [recGood, recGood2] = [rowGood, rowGood2] from by
        simp [processWorksheet, normalizeRow_recGood, normalizeRow_recGood2],
    compute_metrics_monthKey_two rowGood rowGood2 rfl rfl, metrics_goodGood2]
  rfl

theorem eval_negDur :
    compute_metrics monthKey (processWorksheet janStr [recNegDur]) =
      [(keyA, Metrics.mk (-2) 1 (-2))] := by
  rw [show processWorksheet janStr [recNegDur] = [rowNegDur] from by
        simp [processWorksheet, normalizeRow_recNegDur],
    compute_metrics_monthKey_one, metrics_negDur]
  rfl

/-! ### Helper lemmas about the aggregator -/

/-- Membership in the aggregation output characterised by key membership and
the per-group computation. -/
theorem mem_compute_metrics {κ : Type} [DecidableEq κ] {key : Row → Option κ}
    {rows : List Row} {k : κ} {m : Metrics} :
    (k, m) ∈ compute_metrics key rows ↔
      k ∈ keysOf key rows ∧ m = metricsOfGroup (groupOf key rows k) := by
  unfold compute_metrics
  constructor
  · intro h
    obtain ⟨k2, hk2, heq⟩ := List.mem_map.1 h
    injection heq with h1 h2
    subst h1
    exact ⟨hk2, h2.symm⟩
  · rintro ⟨hk, rfl⟩
    exact List.mem_map.2 ⟨k, hk, rfl⟩

/-- A key that the aggregator emits has a nonempty group. -/
theorem groupOf_ne_nil {κ : Type} [DecidableEq κ] {key : Row → Option κ}
    {rows : List Row} {k : κ} (h : k ∈ keysOf key rows) :
    groupOf key rows k ≠ [] := by
  rw [keysOf, List.mem_dedup] at h
  obtain ⟨r, hr, hkr⟩ := List.mem_filterMap.1 h
  intro hnil
  have hmem : r ∈ groupOf key rows k := by
    rw [groupOf, List.mem_filter]
    exact ⟨hr, by simp [hkr]⟩
  rw [hnil] at hmem
  exact (List.not_mem_nil r) hmem

theorem SAIDI_metricsOfGroup (g : List Row) :
    (metricsOfGroup g).SAIDI =
      if 0 < custSum g then durCustSum g / custSum g else 0 := rfl

theorem SAIFI_metricsOfGroup (g : List Row) :
    (metricsOfGroup g).SAIFI =
      if 0 < custDistinct g then (g.length : ℚ) / (custDistinct g : ℚ) else 0 := rfl

theorem CAIDI_metricsOfGroup (g : List Row) :
    (metricsOfGroup g).CAIDI =
      if 0 < custDistinct g ∧ 0 < g.length then
        (durCustSum g / custSum g) / ((g.length : ℚ) / (custDistinct g : ℚ))
      else 0 := rfl

/-- `metricsOfGroup` only reads order-insensitive aggregates of the group. -/
theorem metricsOfGroup_perm {g1 g2 : List Row} (h : g1.Perm g2) :
    metricsOfGroup g1 = metricsOfGroup g2 := by
  have hsdc : durCustSum g1 = durCustSum g2 := by
    unfold durCustSum nansum
    exact ((h.map prodDC).filterMap id).sum_eq
  have hsc : custSum g1 = custSum g2 := by
    unfold custSum nansum
    exact ((h.map fun r => r.customerNo).filterMap id).sum_eq
  have hnu : custDistinct g1 = custDistinct g2 := by
    unfold custDistinct nunique
    exact (((h.map fun r => r.customerNo).filterMap id).dedup).length_eq
  have hlen : g1.length = g2.length := h.length_eq
  unfold metricsOfGroup
  rw [hsdc, hsc, hnu, hlen]

/-! ### Claim theorems: the aggregator (C1-C5) -/

/-- C1, counterexample: on a single record whose parsed customer count is
`-5` (a value nothing in the source excludes) with a 2 h outage, the
feeder-month aggregation returns `SAIFI = 1 > 0` but `CAIDI = 2` while
`SAIDI / SAIFI = 0 / 1 = 0`, so `CAIDI ≠ SAIDI / SAIFI` with `SAIFI > 0`,
refuting the claimed invariant. -/
theorem C1_caidi_counterexample :
    compute_metrics monthKey (processWorksheet janStr [recNegCust]) =
      [(keyA, Metrics.mk 0 1 2)] ∧
    0 < (Metrics.mk 0 1 2).SAIFI ∧
    (Metrics.mk 0 1 2).CAIDI ≠
      (Metrics.mk 0 1 2).SAIDI / (Metrics.mk 0 1 2).SAIFI :=
  ⟨eval_negCust, by norm_num, by norm_num⟩

/-- C1, amended: for every group the aggregator emits, `CAIDI = 0` whenever
`SAIFI = 0`, and `CAIDI = SAIDI / SAIFI` whenever `SAIFI > 0` *and* the
group's customer-count sum is positive (the guard the code actually
evaluates); with a non-positive customer-count sum the unguarded quotient
need not equal `SAIDI / SAIFI`. -/
theorem C1_caidi_guarded {κ : Type} [DecidableEq κ] (key : Row → Option κ)
    (rows : List Row) (k : κ) (m : Metrics)
    (h : (k, m) ∈ compute_metrics key rows) :
    (m.SAIFI = 0 → m.CAIDI = 0) ∧
    (0 < m.SAIFI → 0 < custSum (groupOf key rows k) →
      m.CAIDI = m.SAIDI / m.SAIFI) := by
  obtain ⟨hk, rfl⟩ := mem_compute_metrics.1 h
  have hlen : 0 < (groupOf key rows k).length :=
    List.length_pos.2 (groupOf_ne_nil hk)
  by_cases hnu : 0 < custDistinct (groupOf key rows k)
  · constructor
    · intro h0
      rw [SAIFI_metricsOfGroup, if_pos hnu] at h0
      rcases div_eq_zero_iff.1 h0 with h1 | h1
      · rw [Nat.cast_eq_zero] at h1
        omega
      · rw [Nat.cast_eq_zero] at h1
        omega
    · intro _ hsc
      rw [SAIFI_metricsOfGroup, if_pos hnu, SAIDI_metricsOfGroup, if_pos hsc,
        CAIDI_metricsOfGroup, if_pos ⟨hnu, hlen⟩]
  · constructor
    · intro _
      rw [CAIDI_metricsOfGroup, if_neg (fun hc => hnu hc.1)]
    · intro hS
      rw [SAIFI_metricsOfGroup, if_neg hnu] at hS
      exact absurd hS (lt_irrefl 0)

/-- C1, witness: the amended statement applied to the concrete group whose
only record has NaN customer count, where `SAIFI = 0` and hence
`CAIDI = 0`. -/
theorem C1_caidi_guarded_witness : (Metrics.mk 0 0 0).CAIDI = 0 := by
  have h := C1_caidi_guarded monthKey (processWorksheet janStr [recNullCust])
    keyA (Metrics.mk 0 0 0)
    (by rw [eval_nullCust]; exact List.mem_singleton.2 rfl)
  exact h.1 rfl

/-- C2, counterexample: a record with NaN `customerCount`, NaN
`elapsedTime` and missing `faultCategory` is *not* excluded from the
feeder-month aggregation: alone it produces a metrics row `(0, 0, 0)` (not
an empty result), and next to one well-formed record with customer count 10
it raises the group's `SAIFI` from 1 to 2 — it counts in `len(g)` — so it
does contribute to SAIFI, refuting the exclusion claim. -/
theorem C2_null_not_excluded_counterexample :
    compute_metrics monthKey (processWorksheet janStr [recNullCust]) =
      [(keyA, Metrics.mk 0 0 0)] ∧
    compute_metrics monthKey (processWorksheet janStr [recNullCust]) ≠ [] ∧
    compute_metrics monthKey (processWorksheet janStr [recGood]) =
      [(keyA, Metrics.mk 2 1 2)] ∧
    compute_metrics monthKey (processWorksheet janStr [recGood, recNullCust]) =
      [(keyA, Metrics.mk 2 2 1)] :=
  ⟨eval_nullCust, by rw [eval_nullCust]; simp, eval_good, eval_goodNull⟩

/-- C2, amended: such records are kept: whenever a key is present and every
record of its group has NaN `customerCount`, the aggregator still emits a
metrics row for that group, with `SAIFI = SAIDI = CAIDI = 0` (the NaN
values are skipped by the sums and the distinct count, so the guards all
fail); records are dropped only by missing *group-key* columns. -/
theorem C2_null_rows_kept {κ : Type} [DecidableEq κ] (key : Row → Option κ)
    (rows : List Row) (k : κ) (hk : k ∈ keysOf key rows)
    (hnull : ∀ r ∈ rows, key r = some k → r.customerNo = none) :
    (k, Metrics.mk 0 0 0) ∈ compute_metrics key rows := by
  have hg : ∀ r ∈ groupOf key rows k, r.customerNo = none := by
    intro r hr
    rw [groupOf, List.mem_filter] at hr
    exact hnull r hr.1 (of_decide_eq_true hr.2)
  have hmapnil :
      ((groupOf key rows k).map (fun r => r.customerNo)).filterMap id = [] := by
    rw [List.filterMap_eq_nil_iff]
    intro o ho
    obtain ⟨r, hr, rfl⟩ := List.mem_map.1 ho
    exact hg r hr
  have hsc : custSum (groupOf key rows k) = 0 := by
    rw [custSum, nansum, hmapnil, List.sum_nil]
  have hnu : custDistinct (groupOf key rows k) = 0 := by
    rw [custDistinct, nunique, hmapnil]
    rfl
  refine mem_compute_metrics.2 ⟨hk, ?_⟩
  unfold metricsOfGroup
  rw [hsc, hnu]
  norm_num

/-- C2, witness: the amended statement applied to the concrete
all-NaN-customer group. -/
theorem C2_null_rows_kept_witness :
    (keyA, Metrics.mk 0 0 0) ∈
      compute_metrics monthKey (processWorksheet janStr [recNullCust]) :=
  C2_null_rows_kept monthKey (processWorksheet janStr [recNullCust]) keyA
    (by decide) (by decide)

/-- C3: for every group the aggregator emits, `SAIDI` equals the
(NaN-skipping) sum of `durationHours · customerCount` over the group
divided by the (NaN-skipping) customer-count sum when that sum is positive,
and `0` otherwise. -/
theorem C3_saidi_formula {κ : Type} [DecidableEq κ] (key : Row → Option κ)
    (rows : List Row) (k : κ) (m : Metrics)
    (h : (k, m) ∈ compute_metrics key rows) :
    m.SAIDI =
      if 0 < custSum (groupOf key rows k) then
        durCustSum (groupOf key rows k) / custSum (groupOf key rows k)
      else 0 := by
  obtain ⟨-, rfl⟩ := mem_compute_metrics.1 h
  rfl

/-- C3, witness: the formula instantiated at the concrete one-record group
with customer count 10 and a 2 h outage (`SAIDI = 20 / 10 = 2`). -/
theorem C3_saidi_formula_witness :
    (Metrics.mk 2 1 2).SAIDI =
      if 0 < custSum (groupOf monthKey (processWorksheet janStr [recGood]) keyA) then
        durCustSum (groupOf monthKey (processWorksheet janStr [recGood]) keyA) /
          custSum (groupOf monthKey (processWorksheet janStr [recGood]) keyA)
      else 0 :=
  C3_saidi_formula monthKey (processWorksheet janStr [recGood]) keyA
    (Metrics.mk 2 1 2) (by rw [eval_good]; exact List.mem_singleton.2 rfl)

/-- C4: for every group the aggregator emits, `SAIFI` equals the number of
records of the group divided by the number of distinct (non-NaN)
`customerCount` values when that count is positive, and `0` otherwise; and
on the spec's concrete two-record group with both customer counts 10, the
distinct count is 1 and `SAIFI = 2 / 1 = 2`. -/
theorem C4_saifi_formula :
    (∀ (κ : Type) [DecidableEq κ] (key : Row → Option κ) (rows : List Row)
      (k : κ) (m : Metrics), (k, m) ∈ compute_metrics key rows →
      m.SAIFI =
        if 0 < custDistinct (groupOf key rows k) then
          ((groupOf key rows k).length : ℚ) /
            (custDistinct (groupOf key rows k) : ℚ)
        else 0) ∧
    custDistinct (processWorksheet janStr [recGood, recGood2]) = 1 ∧
    compute_metrics monthKey (processWorksheet janStr [recGood, recGood2]) =
      [(keyA, Metrics.mk 4 2 2)] := by
  refine ⟨?_, ?_, eval_goodGood2⟩
  · intro κ _ key rows k m h
    obtain ⟨-, rfl⟩ := mem_compute_metrics.1 h
    rfl
  · rw [show processWorksheet janStr [recGood, recGood2] = [rowGood, rowGood2] from by
        simp [processWorksheet, normalizeRow_recGood, normalizeRow_recGood2]]
    norm_num [custDistinct, nunique, rowGood, rowGood2, List.dedup_cons_of_mem,
      List.dedup_cons_of_not_mem, fm_id_some, fm_id_none, fm_id_nil]

/-- C4, witness: the general formula instantiated at the concrete
two-record group with equal customer counts (`SAIFI = 2 / 1 = 2`). -/
theorem C4_saifi_formula_witness :
    (Metrics.mk 4 2 2).SAIFI =
      if 0 < custDistinct (groupOf monthKey
          (processWorksheet janStr [recGood, recGood2]) keyA) then
        ((groupOf monthKey (processWorksheet janStr [recGood, recGood2]) keyA).length : ℚ) /
          (custDistinct (groupOf monthKey
            (processWorksheet janStr [recGood, recGood2]) keyA) : ℚ)
      else 0 :=
  C4_saifi_formula.1 _ monthKey (processWorksheet janStr [recGood, recGood2]) keyA
    (Metrics.mk 4 2 2) (by rw [eval_goodGood2]; exact List.mem_singleton.2 rfl)

/-- C5: the aggregation is order-independent: permuting the input rows
yields the same set of group keys, and any rows emitted for the same key
from the two orders carry equal `SAIFI`/`SAIDI`/`CAIDI` values (exact
equality over `ℚ`, hence within any tolerance).  Determinism across
repeated runs is immediate since `compute_metrics` is a pure function. -/
theorem C5_aggregation_perm_invariant {κ : Type} [DecidableEq κ]
    (key : Row → Option κ) (l1 l2 : List Row) (hp : l1.Perm l2) (k : κ) :
    ((∃ m, (k, m) ∈ compute_metrics key l1) ↔
      (∃ m, (k, m) ∈ compute_metrics key l2)) ∧
    ∀ m1 m2, (k, m1) ∈ compute_metrics key l1 →
      (k, m2) ∈ compute_metrics key l2 → m1 = m2 := by
  have hkeys : k ∈ keysOf key l1 ↔ k ∈ keysOf key l2 := by
    rw [keysOf, keysOf, List.mem_dedup, List.mem_dedup]
    exact (hp.filterMap key).mem_iff
  have hgroups : (groupOf key l1 k).Perm (groupOf key l2 k) := hp.filter _
  refine ⟨⟨?_, ?_⟩, ?_⟩
  · rintro ⟨m, hm⟩
    obtain ⟨hk, -⟩ := mem_compute_metrics.1 hm
    exact ⟨_, mem_compute_metrics.2 ⟨hkeys.1 hk, rfl⟩⟩
  · rintro ⟨m, hm⟩
    obtain ⟨hk, -⟩ := mem_compute_metrics.1 hm
    exact ⟨_, mem_compute_metrics.2 ⟨hkeys.2 hk, rfl⟩⟩
  · intro m1 m2 h1 h2
    obtain ⟨-, rfl⟩ := mem_compute_metrics.1 h1
    obtain ⟨-, rfl⟩ := mem_compute_metrics.1 h2
    exact metricsOfGroup_perm hgroups

/-- C5, witness: applied to a concrete two-record worksheet and its
transposition, the feeder-month key of the original order is also emitted
for the transposed order. -/
theorem C5_aggregation_perm_invariant_witness :
    ∃ m, (keyA, m) ∈
      compute_metrics monthKey (processWorksheet janStr [recNullCust, recGood]) := by
  have hperm : (processWorksheet janStr [recGood, recNullCust]).Perm
      (processWorksheet janStr [recNullCust, recGood]) := by
    simp only [processWorksheet, List.map_cons, List.map_nil]
    exact List.Perm.swap _ _ _
  exact (C5_aggregation_perm_invariant monthKey _ _ hperm keyA).1.1
    ⟨Metrics.mk 2 2 1, by rw [eval_goodNull]; exact List.mem_singleton.2 rfl⟩

/-! ### Claim theorems: derived columns (C8, C10) -/

/-- C8, counterexample: the `Week` column is `strftime("%Y-W%U")`, not an
ISO-week label: for the interruption timestamp 2023-01-01 the code labels
the week `2023-W01` while ISO 8601 week numbering gives `2022-W52`. -/
theorem C8_week_label_not_iso :
    (normalizeRow janStr recGood).week = some "2023-W01" ∧
    isoWeekLabel ts0 = "2022-W52" ∧
    (normalizeRow janStr recGood).week ≠ some (isoWeekLabel ts0) := by
  refine ⟨by decide, by decide, by decide⟩

/-- C8, amended: from each record's timestamps the normaliser derives
`durationHours` (missing iff either timestamp is missing), a calendar date
and a week label (each missing iff the interruption timestamp is missing);
the week label is the `%Y-W%U` label — Sunday-first week numbers within
the calendar year, not ISO week numbering. -/
theorem C8_derived_fields (month : String) (r : RawRec) :
    ((normalizeRow month r).durationHr = none ↔
      r.interruptionTime = none ∨ r.restorationTime = none) ∧
    ((normalizeRow month r).date = none ↔ r.interruptionTime = none) ∧
    ((normalizeRow month r).week = none ↔ r.interruptionTime = none) ∧
    ∀ t, r.interruptionTime = some t →
      (normalizeRow month r).week = some (strftimeYW t) := by
  rcases r with ⟨f, it, rt, c, e, fc⟩
  cases it <;> cases rt <;> simp [normalizeRow, durationHrOf]

/-- C8, witness: the derived-field description applied to the concrete
record interrupted at 2023-01-01 00:00. -/
theorem C8_derived_fields_witness :
    (normalizeRow janStr recGood).week = some (strftimeYW ts0) :=
  (C8_derived_fields janStr recGood).2.2.2 ts0 (by decide)

/-- C10: a record whose restoration timestamp precedes its interruption
timestamp (02:00 back to 00:00, 5 customers) flows through unguarded: its
derived duration is `-2` h and the emitted group metrics have
`SAIDI = CAIDI = -2 < 0`. -/
theorem C10_negative_duration_flows_through :
    (normalizeRow janStr recNegDur).durationHr = some (-2) ∧
    compute_metrics monthKey (processWorksheet janStr [recNegDur]) =
      [(keyA, Metrics.mk (-2) 1 (-2))] ∧
    (Metrics.mk (-2) 1 (-2)).SAIDI < 0 ∧ (Metrics.mk (-2) 1 (-2)).CAIDI < 0 :=
  ⟨by simp [normalizeRow, recNegDur, dur_ts2h_ts0], eval_negDur,
    by norm_num, by norm_num⟩

/-! ### Claim theorems: the load step (C9) -/

/-- C9: when every worksheet yields zero records, the `all_data` list stays
empty (each empty worksheet is skipped by `continue`) and
`pd.concat(all_data)` raises `ValueError("No objects to concatenate")`:
the pipeline errors out before any chart rendering instead of surfacing a
"no data" condition. -/
theorem C9_empty_dataset_raises (wss : List (String × List RawRec))
    (h : ∀ p ∈ wss, p.2 = []) :
    load_all wss = Except.error "No objects to concatenate" := by
  have hnil : (wss.filterMap fun ws =>
      if ws.2.isEmpty then none else some (processWorksheet ws.1 ws.2)) = [] := by
    rw [List.filterMap_eq_nil_iff]
    intro p hp
    rw [h p hp]
    rfl
  unfold load_all
  rw [hnil]
  rfl

/-- C9, witness: the crash evaluated on two concrete empty worksheets. -/
theorem C9_empty_dataset_raises_witness :
    load_all [(janStr, []), ("Feb", [])] = Except.error "No objects to concatenate" :=
  C9_empty_dataset_raises [(janStr, []), ("Feb", [])] (by decide)

/-! ### Character-level lemmas for the feeder-name normaliser -/

theorem bool_eq_of_iff {a b : Bool} (h : a = true ↔ b = true) : a = b := by
  cases a <;> cases b <;> simp_all

theorem pyIsSpace_iff (c : Nat) :
    pyIsSpace c = true ↔
      c = 32 ∨ c = 9 ∨ c = 10 ∨ c = 11 ∨ c = 12 ∨ c = 13 ∨ c = 160 := by
  simp only [pyIsSpace, Bool.or_eq_true, beq_iff_eq]
  tauto

theorem ne_160_of_not_space {c : Nat} (h : pyIsSpace c = false) : c ≠ 160 := by
  intro hc
  subst hc
  exact absurd h (by decide)

theorem toLowerCp_toLowerCp (c : Nat) : toLowerCp (toLowerCp c) = toLowerCp c := by
  unfold toLowerCp isUpperCp
  split_ifs <;>
    simp_all only [Bool.and_eq_true, decide_eq_true_eq] <;> omega

theorem toUpperCp_toUpperCp (c : Nat) : toUpperCp (toUpperCp c) = toUpperCp c := by
  unfold toUpperCp isLowerCp
  split_ifs <;>
    simp_all only [Bool.and_eq_true, decide_eq_true_eq] <;> omega

theorem toUpperCp_toLowerCp (c : Nat) : toUpperCp (toLowerCp c) = toUpperCp c := by
  unfold toUpperCp toLowerCp isUpperCp isLowerCp
  split_ifs <;>
    simp_all only [Bool.and_eq_true, decide_eq_true_eq] <;> omega

theorem isAlphaCp_toLowerCp (c : Nat) : isAlphaCp (toLowerCp c) = isAlphaCp c := by
  apply bool_eq_of_iff
  unfold isAlphaCp toLowerCp isUpperCp isLowerCp
  split_ifs <;> first
    | rfl
    | (simp only [Bool.or_eq_true, Bool.and_eq_true, decide_eq_true_eq,
        beq_iff_eq] at *; omega)

theorem isAlphaCp_toUpperCp (c : Nat) : isAlphaCp (toUpperCp c) = isAlphaCp c := by
  apply bool_eq_of_iff
  unfold isAlphaCp toUpperCp isUpperCp isLowerCp
  split_ifs <;> first
    | rfl
    | (simp only [Bool.or_eq_true, Bool.and_eq_true, decide_eq_true_eq,
        beq_iff_eq] at *; omega)

theorem pyIsSpace_toLowerCp (c : Nat) : pyIsSpace (toLowerCp c) = pyIsSpace c := by
  apply bool_eq_of_iff
  unfold pyIsSpace toLowerCp isUpperCp
  split_ifs <;> first
    | rfl
    | (simp only [Bool.or_eq_true, Bool.and_eq_true, decide_eq_true_eq,
        beq_iff_eq] at *; omega)

theorem pyIsSpace_toUpperCp (c : Nat) : pyIsSpace (toUpperCp c) = pyIsSpace c := by
  apply bool_eq_of_iff
  unfold pyIsSpace toUpperCp isLowerCp
  split_ifs <;> first
    | rfl
    | (simp only [Bool.or_eq_true, Bool.and_eq_true, decide_eq_true_eq,
        beq_iff_eq] at *; omega)

theorem isAlphaCp_eq_of_lower {c c' : Nat} (h : toLowerCp c = toLowerCp c') :
    isAlphaCp c = isAlphaCp c' := by
  rw [← isAlphaCp_toLowerCp c, h, isAlphaCp_toLowerCp]

theorem pyIsSpace_eq_of_lower {c c' : Nat} (h : toLowerCp c = toLowerCp c') :
    pyIsSpace c = pyIsSpace c' := by
  rw [← pyIsSpace_toLowerCp c, h, pyIsSpace_toLowerCp]

theorem lower_merge_range {c c' : Nat} (h : toLowerCp c = toLowerCp c')
    (hne : c ≠ c') : c < 160 ∧ c' < 160 := by
  unfold toLowerCp isUpperCp at h
  split_ifs at h <;>
    simp_all only [Bool.and_eq_true, decide_eq_true_eq] <;> omega

theorem nfkdChar_cases (c : Nat) :
    (c = 160 ∧ nfkdChar c = [32]) ∨
    (c = 64257 ∧ nfkdChar c = [102, 105]) ∨
    (c = 64258 ∧ nfkdChar c = [102, 108]) ∨
    (c = 178 ∧ nfkdChar c = [50]) ∨
    (c = 179 ∧ nfkdChar c = [51]) ∨
    nfkdChar c = [c] := by
  by_cases h1 : c = 160
  · exact Or.inl ⟨h1, by subst h1; decide⟩
  by_cases h2 : c = 64257
  · exact Or.inr (Or.inl ⟨h2, by subst h2; decide⟩)
  by_cases h3 : c = 64258
  · exact Or.inr (Or.inr (Or.inl ⟨h3, by subst h3; decide⟩))
  by_cases h4 : c = 178
  · exact Or.inr (Or.inr (Or.inr (Or.inl ⟨h4, by subst h4; decide⟩)))
  by_cases h5 : c = 179
  · exact Or.inr (Or.inr (Or.inr (Or.inr (Or.inl ⟨h5, by subst h5; decide⟩))))
  exact Or.inr (Or.inr (Or.inr (Or.inr (Or.inr (by
    simp [nfkdChar, h1, h2, h3, h4, h5])))))

theorem nfkdChar_of_small {c : Nat} (h : c < 160) : nfkdChar c = [c] := by
  unfold nfkdChar
  rw [if_neg (by omega), if_neg (by omega), if_neg (by omega), if_neg (by omega),
    if_neg (by omega)]

theorem nfkdChar_ne_nil (c : Nat) : nfkdChar c ≠ [] := by
  rcases nfkdChar_cases c with ⟨-, he⟩ | ⟨-, he⟩ | ⟨-, he⟩ | ⟨-, he⟩ | ⟨-, he⟩ | he <;>
    simp [he]

theorem nfkdChar_nfkdChar {c d : Nat} (h : d ∈ nfkdChar c) : nfkdChar d = [d] := by
  rcases nfkdChar_cases c with ⟨rfl, he⟩ | ⟨rfl, he⟩ | ⟨rfl, he⟩ | ⟨rfl, he⟩ |
    ⟨rfl, he⟩ | he
  · rw [he] at h
    simp only [List.mem_singleton] at h
    subst h
    decide
  · rw [he] at h
    simp only [List.mem_cons, List.mem_singleton] at h
    rcases h with rfl | rfl | h
    · decide
    · decide
    · exact absurd h (List.not_mem_nil d)
  · rw [he] at h
    simp only [List.mem_cons, List.mem_singleton] at h
    rcases h with rfl | rfl | h
    · decide
    · decide
    · exact absurd h (List.not_mem_nil d)
  · rw [he] at h
    simp only [List.mem_singleton] at h
    subst h
    decide
  · rw [he] at h
    simp only [List.mem_singleton] at h
    subst h
    decide
  · rw [he] at h
    simp only [List.mem_singleton] at h
    subst h
    exact he

theorem nfkdChar_not_space {c : Nat} (h : pyIsSpace c = false) :
    ∀ d ∈ nfkdChar c, pyIsSpace d = false := by
  rcases nfkdChar_cases c with ⟨rfl, he⟩ | ⟨rfl, he⟩ | ⟨rfl, he⟩ | ⟨rfl, he⟩ |
    ⟨rfl, he⟩ | he
  · exact absurd h (by decide)
  all_goals rw [he]
  · intro d hd
    simp only [List.mem_cons, List.mem_singleton] at hd
    rcases hd with rfl | rfl | hd
    · decide
    · decide
    · exact absurd hd (List.not_mem_nil d)
  · intro d hd
    simp only [List.mem_cons, List.mem_singleton] at hd
    rcases hd with rfl | rfl | hd
    · decide
    · decide
    · exact absurd hd (List.not_mem_nil d)
  · intro d hd
    simp only [List.mem_singleton] at hd
    subst hd
    decide
  · intro d hd
    simp only [List.mem_singleton] at hd
    subst hd
    decide
  · intro d hd
    simp only [List.mem_singleton] at hd
    subst hd
    exact h

theorem nfkdChar_space_ne_160 {c : Nat} (hs : pyIsSpace c = true) (hne : c ≠ 160) :
    nfkdChar c = [c] := by
  rw [pyIsSpace_iff] at hs
  apply nfkdChar_of_small
  omega

theorem nfkdChar_lower {c c' : Nat} (h : toLowerCp c = toLowerCp c') :
    (nfkdChar c).map toLowerCp = (nfkdChar c').map toLowerCp := by
  by_cases hne : c = c'
  · subst hne
    rfl
  obtain ⟨hc, hc'⟩ := lower_merge_range h hne
  rw [nfkdChar_of_small hc, nfkdChar_of_small hc']
  simp [h]

theorem replaceChar_lower {c c' : Nat} (h : toLowerCp c = toLowerCp c') :
    toLowerCp (if c = 160 then 32 else c) = toLowerCp (if c' = 160 then 32 else c') := by
  by_cases hne : c = c'
  · subst hne
    rfl
  obtain ⟨hc, hc'⟩ := lower_merge_range h hne
  rw [if_neg (by omega), if_neg (by omega)]
  exact h

theorem titleChar_space (b : Bool) : titleChar b 32 = 32 := by
  cases b <;> decide

theorem isAlphaCp_titleChar (b : Bool) (c : Nat) :
    isAlphaCp (titleChar b c) = isAlphaCp c := by
  unfold titleChar
  by_cases ha : isAlphaCp c = true
  · rw [if_pos ha]
    cases b
    · simp only [Bool.false_eq_true, if_false]
      rw [isAlphaCp_toUpperCp]
    · simp only [if_true]
      rw [isAlphaCp_toLowerCp]
  · rw [if_neg ha]

theorem titleChar_titleChar (b : Bool) (c : Nat) :
    titleChar b (titleChar b c) = titleChar b c := by
  by_cases ha : isAlphaCp c = true
  · cases b
    · rw [show titleChar false c = toUpperCp c from by simp [titleChar, ha]]
      rw [show titleChar false (toUpperCp c) = toUpperCp (toUpperCp c) from by
        simp [titleChar, isAlphaCp_toUpperCp, ha]]
      exact toUpperCp_toUpperCp c
    · rw [show titleChar true c = toLowerCp c from by simp [titleChar, ha]]
      rw [show titleChar true (toLowerCp c) = toLowerCp (toLowerCp c) from by
        simp [titleChar, isAlphaCp_toLowerCp, ha]]
      exact toLowerCp_toLowerCp c
  · rw [show titleChar b c = c from by
      simp [titleChar, ha]]
    simp [titleChar, ha]

theorem pyIsSpace_titleChar (b : Bool) (c : Nat) :
    pyIsSpace (titleChar b c) = pyIsSpace c := by
  unfold titleChar
  by_cases ha : isAlphaCp c = true
  · rw [if_pos ha]
    cases b
    · simp only [Bool.false_eq_true, if_false]
      rw [pyIsSpace_toUpperCp]
    · simp only [if_true]
      rw [pyIsSpace_toLowerCp]
  · rw [if_neg ha]

theorem titleChar_alpha_lt {b : Bool} {c : Nat} (ha : isAlphaCp c = true) :
    titleChar b c < 160 := by
  unfold titleChar
  rw [if_pos ha]
  unfold isAlphaCp isUpperCp isLowerCp at ha
  unfold toLowerCp toUpperCp isUpperCp isLowerCp
  split_ifs <;>
    (simp only [Bool.or_eq_true, Bool.and_eq_true, decide_eq_true_eq] at *; omega)

theorem nfkdFixed_titleChar {c : Nat} (b : Bool) (h : nfkdChar c = [c]) :
    nfkdChar (titleChar b c) = [titleChar b c] := by
  by_cases ha : isAlphaCp c = true
  · exact nfkdChar_of_small (titleChar_alpha_lt ha)
  · rw [show titleChar b c = c from by simp [titleChar, ha]]
    exact h

theorem titleChar_eq_of_lower {c c' : Nat} (h : toLowerCp c = toLowerCp c')
    (b : Bool) : titleChar b c = titleChar b c' := by
  unfold titleChar
  rw [isAlphaCp_eq_of_lower h]
  by_cases ha : isAlphaCp c' = true
  · rw [if_pos ha, if_pos ha]
    cases b
    · simp only [Bool.false_eq_true, if_false]
      rw [← toUpperCp_toLowerCp c, h, toUpperCp_toLowerCp]
    · simp only [if_true]
      exact h
  · rw [if_neg ha, if_neg ha]
    have haC' : isAlphaCp c' = false := Bool.eq_false_iff.2 ha
    have haC : isAlphaCp c = false := by
      rw [isAlphaCp_eq_of_lower h]
      exact haC'
    have hu : isUpperCp c = false := by
      simp only [isAlphaCp, Bool.or_eq_false_iff] at haC
      exact haC.1
    have hu' : isUpperCp c' = false := by
      simp only [isAlphaCp, Bool.or_eq_false_iff] at haC'
      exact haC'.1
    rw [show toLowerCp c = c from by simp [toLowerCp, hu],
      show toLowerCp c' = c' from by simp [toLowerCp, hu']] at h
    exact h

/-! ### List-level lemmas: the whitespace splitter -/

theorem stepSplit_nonspace {c : Nat} (h : pyIsSpace c = false) (acc : List PyStr) :
    stepSplit c acc = (c :: headW acc) :: tailW acc := by
  unfold stepSplit
  rw [if_neg (by simp [h])]
  cases acc <;> rfl

theorem stepSplit_space {c : Nat} (h : pyIsSpace c = true) (acc : List PyStr) :
    stepSplit c acc = [] :: acc := by
  unfold stepSplit
  rw [if_pos h]

theorem rawSplit_cons (c : Nat) (t : PyStr) :
    rawSplit (c :: t) = stepSplit c (rawSplit t) := rfl

theorem pySplit_cons_space {c : Nat} (h : pyIsSpace c = true) (t : PyStr) :
    pySplit (c :: t) = pySplit t := by
  unfold pySplit
  rw [rawSplit_cons, stepSplit_space h]
  simp

theorem foldr_stepSplit_nonspace {A : PyStr} (hne : A ≠ [])
    (hns : ∀ a ∈ A, pyIsSpace a = false) (acc : List PyStr) :
    A.foldr stepSplit acc = (A ++ headW acc) :: tailW acc := by
  induction A with
  | nil => exact absurd rfl hne
  | cons a A ih =>
    rcases A with - | ⟨b, A⟩
    · simp only [List.foldr_cons, List.foldr_nil]
      rw [stepSplit_nonspace (hns a (by simp)) acc]
      rfl
    · simp only [List.foldr_cons] at ih ⊢
      rw [ih (by simp) (fun x hx => hns x (List.mem_cons.2 (Or.inr hx)))]
      rw [stepSplit_nonspace (hns a (by simp))]
      rfl

theorem rawSplit_words_not_space {s : PyStr} :
    ∀ w ∈ rawSplit s, ∀ a ∈ w, pyIsSpace a = false := by
  induction s with
  | nil => intro w hw; exact absurd hw (List.not_mem_nil w)
  | cons c t ih =>
    intro w hw a ha
    rw [rawSplit_cons] at hw
    by_cases hc : pyIsSpace c = true
    · rw [stepSplit_space hc] at hw
      rcases List.mem_cons.1 hw with rfl | hw
      · exact absurd ha (List.not_mem_nil a)
      · exact ih w hw a ha
    · rw [stepSplit_nonspace (Bool.eq_false_iff.2 hc)] at hw
      rcases List.mem_cons.1 hw with rfl | hw
      · rcases List.mem_cons.1 ha with rfl | ha
        · exact Bool.eq_false_iff.2 hc
        · rcases hR : rawSplit t with - | ⟨w0, R0⟩
          · rw [hR] at ha
            exact absurd ha (List.not_mem_nil a)
          · rw [hR] at ha
            exact ih w0 (hR ▸ List.mem_cons_self w0 R0) a ha
      · rcases hR : rawSplit t with - | ⟨w0, R0⟩
        · rw [hR] at hw
          exact absurd hw (List.not_mem_nil w)
        · rw [hR] at hw
          exact ih w (hR ▸ List.mem_cons.2 (Or.inr hw)) a ha

theorem pySplit_words {s : PyStr} {w : PyStr} (hw : w ∈ pySplit s) :
    w ≠ [] ∧ ∀ a ∈ w, pyIsSpace a = false := by
  unfold pySplit at hw
  obtain ⟨hmem, hne⟩ := List.mem_filter.1 hw
  refine ⟨by simpa using hne, rawSplit_words_not_space w hmem⟩

theorem pySplit_pyJoinSp {ws : List PyStr}
    (h : ∀ w ∈ ws, w ≠ [] ∧ ∀ a ∈ w, pyIsSpace a = false) :
    pySplit (pyJoinSp ws) = ws := by
  induction ws with
  | nil => rfl
  | cons w ws ih =>
    obtain ⟨hne, hns⟩ := h w (by simp)
    rcases ws with - | ⟨x, ws⟩
    · show pySplit w = [w]
      unfold pySplit rawSplit
      rw [foldr_stepSplit_nonspace hne hns []]
      show ((w ++ headW []) :: tailW []).filter (fun w => !w.isEmpty) = [w]
      rw [show headW ([] : List PyStr) = [] from rfl,
        show tailW ([] : List PyStr) = [] from rfl, List.append_nil]
      rw [List.filter_cons_of_pos (by simpa using hne)]
      rfl
    · rw [show pyJoinSp (w :: x :: ws) = w ++ 32 :: pyJoinSp (x :: ws) from rfl]
      unfold pySplit rawSplit
      rw [List.foldr_append]
      rw [show List.foldr stepSplit [] (32 :: pyJoinSp (x :: ws)) =
        [] :: List.foldr stepSplit [] (pyJoinSp (x :: ws)) from by
          simp only [List.foldr_cons]
          exact stepSplit_space (by decide) _]
      rw [foldr_stepSplit_nonspace hne hns]
      show ((w ++ []) :: List.foldr stepSplit [] (pyJoinSp (x :: ws))).filter
        (fun w => !w.isEmpty) = w :: x :: ws
      rw [List.append_nil]
      rw [List.filter_cons_of_pos (by simpa using hne)]
      have := ih (fun y hy => h y (List.mem_cons.2 (Or.inr hy)))
      unfold pySplit rawSplit at this
      rw [this]

/-! ### List-level lemmas: NFKD and the NBSP replacement -/

theorem pyNFKD_nil : pyNFKD [] = [] := rfl

theorem pyNFKD_cons (c : Nat) (t : PyStr) :
    pyNFKD (c :: t) = nfkdChar c ++ pyNFKD t := by
  unfold pyNFKD
  simp

theorem mem_pyNFKD {a : Nat} {s : PyStr} (h : a ∈ pyNFKD s) :
    ∃ c ∈ s, a ∈ nfkdChar c := by
  unfold pyNFKD at h
  obtain ⟨l, hl, hal⟩ := List.mem_flatten.1 h
  obtain ⟨c, hc, rfl⟩ := List.mem_map.1 hl
  exact ⟨c, hc, hal⟩

theorem pyNFKD_eq_nil_iff {s : PyStr} : pyNFKD s = [] ↔ s = [] := by
  constructor
  · intro h
    rcases s with - | ⟨c, t⟩
    · rfl
    · rw [pyNFKD_cons] at h
      exact absurd (List.append_eq_nil.1 h).1 (nfkdChar_ne_nil c)
  · rintro rfl
    rfl

theorem pyNFKD_fixed {s : PyStr} (h : ∀ a ∈ s, nfkdChar a = [a]) :
    pyNFKD s = s := by
  induction s with
  | nil => rfl
  | cons c t ih =>
    rw [pyNFKD_cons, h c (by simp), ih (fun a ha => h a (List.mem_cons.2 (Or.inr ha)))]
    rfl

theorem pyReplaceNbsp_id {s : PyStr} (h : ∀ a ∈ s, a ≠ 160) :
    pyReplaceNbsp s = s := by
  unfold pyReplaceNbsp
  induction s with
  | nil => rfl
  | cons c t ih =>
    simp only [List.map_cons]
    rw [if_neg (h c (by simp)), ih (fun a ha => h a (List.mem_cons.2 (Or.inr ha)))]

theorem headW_map_pyNFKD (R : List PyStr) :
    headW (R.map pyNFKD) = pyNFKD (headW R) := by
  cases R <;> rfl

theorem tailW_map_pyNFKD (R : List PyStr) :
    tailW (R.map pyNFKD) = (tailW R).map pyNFKD := by
  cases R <;> rfl

theorem rawSplit_append (u v : PyStr) :
    rawSplit (u ++ v) = u.foldr stepSplit (rawSplit v) := by
  unfold rawSplit
  rw [List.foldr_append]

/-- Splitting commutes with NFKD plus the NBSP replacement: each raw chunk
is NFKD-expanded chunkwise. -/
theorem rawSplit_replace_nfkd (t : PyStr) :
    rawSplit (pyReplaceNbsp (pyNFKD t)) = (rawSplit t).map pyNFKD := by
  induction t with
  | nil => rfl
  | cons c t ih =>
    rw [pyNFKD_cons, show pyReplaceNbsp (nfkdChar c ++ pyNFKD t) =
      pyReplaceNbsp (nfkdChar c) ++ pyReplaceNbsp (pyNFKD t) from List.map_append _ _ _,
      rawSplit_append, ih, rawSplit_cons]
    by_cases hc : pyIsSpace c = true
    · rw [stepSplit_space hc, List.map_cons, pyNFKD_nil]
      by_cases h160 : c = 160
      · subst h160
        rw [show pyReplaceNbsp (nfkdChar 160) = [32] from by decide]
        show stepSplit 32 ((rawSplit t).map pyNFKD) = [] :: (rawSplit t).map pyNFKD
        exact stepSplit_space (by decide) _
      · rw [nfkdChar_space_ne_160 hc h160,
          pyReplaceNbsp_id (s := [c]) (by intro a ha; simp at ha; subst ha; exact h160)]
        show stepSplit c ((rawSplit t).map pyNFKD) = [] :: (rawSplit t).map pyNFKD
        exact stepSplit_space hc _
    · have hcf : pyIsSpace c = false := Bool.eq_false_iff.2 hc
      have hns := nfkdChar_not_space hcf
      rw [stepSplit_nonspace hcf, List.map_cons, pyNFKD_cons,
        pyReplaceNbsp_id (fun a ha => ne_160_of_not_space (hns a ha)),
        foldr_stepSplit_nonspace (nfkdChar_ne_nil c) hns,
        headW_map_pyNFKD, tailW_map_pyNFKD]

theorem pySplit_replace_nfkd (t : PyStr) :
    pySplit (pyReplaceNbsp (pyNFKD t)) = (pySplit t).map pyNFKD := by
  unfold pySplit
  rw [rawSplit_replace_nfkd, List.filter_map]
  congr 1
  apply List.filter_congr
  intro w _
  show (!(pyNFKD w).isEmpty) = (!w.isEmpty)
  rcases w with - | ⟨c, w⟩
  · rfl
  · rcases hpn : pyNFKD (c :: w) with - | ⟨d, l⟩
    · exact absurd (pyNFKD_eq_nil_iff.1 hpn) (List.cons_ne_nil c w)
    · rfl

/-! ### List-level lemmas: stripping is absorbed by splitting -/

theorem filter_empties {X : List PyStr} (h : ∀ w ∈ X, w = []) :
    X.filter (fun w => !w.isEmpty) = [] := by
  rw [List.filter_eq_nil_iff]
  intro w hw
  rw [h w hw]
  decide

theorem headW_empties {X : List PyStr} (h : ∀ w ∈ X, w = []) : headW X = [] := by
  cases X with
  | nil => rfl
  | cons w ws => exact h w (by simp)

theorem stepSplit_congr {A B : List PyStr}
    (hf : A.filter (fun w => !w.isEmpty) = B.filter (fun w => !w.isEmpty))
    (hh : headW A = headW B) (c : Nat) :
    (stepSplit c A).filter (fun w => !w.isEmpty) =
      (stepSplit c B).filter (fun w => !w.isEmpty) ∧
    headW (stepSplit c A) = headW (stepSplit c B) := by
  by_cases hc : pyIsSpace c = true
  · rw [stepSplit_space hc, stepSplit_space hc]
    constructor
    · rw [List.filter_cons_of_neg (by decide), List.filter_cons_of_neg (by decide)]
      exact hf
    · rfl
  · have hcf : pyIsSpace c = false := Bool.eq_false_iff.2 hc
    rw [stepSplit_nonspace hcf, stepSplit_nonspace hcf]
    have htail : (tailW A).filter (fun w => !w.isEmpty) =
        (tailW B).filter (fun w => !w.isEmpty) := by
      rcases A with - | ⟨a, tA⟩ <;> rcases B with - | ⟨b, tB⟩
      · rfl
      · have hb : b = [] := by
          have := hh
          simp only [headW] at this
          exact this.symm
        subst hb
        rw [List.filter_cons_of_neg (by decide)] at hf
        exact hf
      · have ha : a = [] := by
          have := hh
          simp only [headW] at this
          exact this
        subst ha
        rw [List.filter_cons_of_neg (by decide)] at hf
        exact hf
      · have hab : a = b := by
          have := hh
          simp only [headW] at this
          exact this
        subst hab
        by_cases hae : a = []
        · subst hae
          rw [List.filter_cons_of_neg (by decide),
            List.filter_cons_of_neg (by decide)] at hf
          exact hf
        · rw [List.filter_cons_of_pos (by simpa using hae),
            List.filter_cons_of_pos (by simpa using hae)] at hf
          exact List.tail_eq_of_cons_eq hf
    constructor
    · rw [List.filter_cons_of_pos (by simp), List.filter_cons_of_pos (by simp), hh]
      rw [htail]
    · show c :: headW A = c :: headW B
      rw [hh]

theorem foldr_stepSplit_congr (u : PyStr) {A B : List PyStr}
    (hf : A.filter (fun w => !w.isEmpty) = B.filter (fun w => !w.isEmpty))
    (hh : headW A = headW B) :
    (u.foldr stepSplit A).filter (fun w => !w.isEmpty) =
      (u.foldr stepSplit B).filter (fun w => !w.isEmpty) ∧
    headW (u.foldr stepSplit A) = headW (u.foldr stepSplit B) := by
  induction u with
  | nil => exact ⟨hf, hh⟩
  | cons c u ih =>
    simp only [List.foldr_cons]
    exact stepSplit_congr ih.1 ih.2 c

theorem rawSplit_all_space {r : PyStr} (h : ∀ a ∈ r, pyIsSpace a = true) :
    ∀ w ∈ rawSplit r, w = [] := by
  induction r with
  | nil => intro w hw; exact absurd hw (List.not_mem_nil w)
  | cons c t ih =>
    intro w hw
    rw [rawSplit_cons, stepSplit_space (h c (by simp))] at hw
    rcases List.mem_cons.1 hw with rfl | hw
    · rfl
    · exact ih (fun a ha => h a (List.mem_cons.2 (Or.inr ha))) w hw

theorem pySplit_append_spaces (u r : PyStr) (hr : ∀ a ∈ r, pyIsSpace a = true) :
    pySplit (u ++ r) = pySplit u := by
  have hempties := rawSplit_all_space hr
  have h := foldr_stepSplit_congr u (A := rawSplit r) (B := [])
    (by rw [filter_empties hempties]; rfl) (headW_empties hempties)
  unfold pySplit
  rw [rawSplit_append]
  exact h.1

theorem pySplit_dropWhile (s : PyStr) :
    pySplit (s.dropWhile pyIsSpace) = pySplit s := by
  induction s with
  | nil => rfl
  | cons c t ih =>
    rw [List.dropWhile_cons]
    by_cases hc : pyIsSpace c = true
    · rw [if_pos hc, ih, pySplit_cons_space hc]
    · rw [if_neg hc]

theorem pySplit_pyStrip (s : PyStr) : pySplit (pyStrip s) = pySplit s := by
  have hdecomp : s.dropWhile pyIsSpace =
      ((s.dropWhile pyIsSpace).reverse.dropWhile pyIsSpace).reverse ++
        ((s.dropWhile pyIsSpace).reverse.takeWhile pyIsSpace).reverse := by
    conv_lhs => rw [← List.reverse_reverse (s.dropWhile pyIsSpace),
      ← List.takeWhile_append_dropWhile (p := pyIsSpace)
        (l := (s.dropWhile pyIsSpace).reverse)]
    rw [List.reverse_append]
  have hr : ∀ a ∈ ((s.dropWhile pyIsSpace).reverse.takeWhile pyIsSpace).reverse,
      pyIsSpace a = true := by
    intro a ha
    rw [List.mem_reverse] at ha
    exact List.mem_takeWhile_imp ha
  calc pySplit (pyStrip s)
      = pySplit (((s.dropWhile pyIsSpace).reverse.dropWhile pyIsSpace).reverse ++
          ((s.dropWhile pyIsSpace).reverse.takeWhile pyIsSpace).reverse) :=
        (pySplit_append_spaces _ _ hr).symm
    _ = pySplit (s.dropWhile pyIsSpace) := by rw [← hdecomp]
    _ = pySplit s := pySplit_dropWhile s

/-! ### List-level lemmas: title casing -/

theorem pyTitleAux_cons (b : Bool) (c : Nat) (cs : PyStr) :
    pyTitleAux b (c :: cs) = titleChar b c :: pyTitleAux (isAlphaCp c) cs := rfl

theorem length_pyTitleAux (b : Bool) (s : PyStr) :
    (pyTitleAux b s).length = s.length := by
  induction s generalizing b with
  | nil => rfl
  | cons c cs ih =>
    rw [pyTitleAux_cons, List.length_cons, List.length_cons, ih]

theorem mem_pyTitleAux {a : Nat} {s : PyStr} {b : Bool} (h : a ∈ pyTitleAux b s) :
    ∃ c ∈ s, ∃ b', a = titleChar b' c := by
  induction s generalizing b with
  | nil => exact absurd h (List.not_mem_nil a)
  | cons c cs ih =>
    rw [pyTitleAux_cons] at h
    rcases List.mem_cons.1 h with rfl | h
    · exact ⟨c, by simp, b, rfl⟩
    · obtain ⟨c0, hc0, b', hb'⟩ := ih h
      exact ⟨c0, List.mem_cons.2 (Or.inr hc0), b', hb'⟩

theorem titleAux_append_space (v : PyStr) :
    ∀ (u : PyStr) (b : Bool),
      pyTitleAux b (u ++ 32 :: v) = pyTitleAux b u ++ 32 :: pyTitleAux false v := by
  intro u
  induction u with
  | nil =>
    intro b
    show titleChar b 32 :: pyTitleAux (isAlphaCp 32) v = [] ++ 32 :: pyTitleAux false v
    rw [titleChar_space, show isAlphaCp 32 = false from rfl]
    rfl
  | cons c u ih =>
    intro b
    show titleChar b c :: pyTitleAux (isAlphaCp c) (u ++ 32 :: v) = _
    rw [ih (isAlphaCp c)]
    rfl

theorem pyTitle_joinSp (ws : List PyStr) :
    pyTitle (pyJoinSp ws) = pyJoinSp (ws.map pyTitle) := by
  induction ws with
  | nil => rfl
  | cons w ws ih =>
    rcases ws with - | ⟨x, ws⟩
    · rfl
    · show pyTitleAux false (w ++ 32 :: pyJoinSp (x :: ws)) = _
      rw [titleAux_append_space _ w false]
      show pyTitle w ++ 32 :: pyTitle (pyJoinSp (x :: ws)) = _
      rw [ih]
      rfl

theorem pyTitleAux_idem (s : PyStr) : ∀ b, pyTitleAux b (pyTitleAux b s) = pyTitleAux b s := by
  induction s with
  | nil => intro b; rfl
  | cons c cs ih =>
    intro b
    rw [pyTitleAux_cons, pyTitleAux_cons, titleChar_titleChar, isAlphaCp_titleChar,
      ih (isAlphaCp c)]

/-! ### The characterisation of `clean_feeder_name` -/

/-- `clean_feeder_name` equals: split the raw string into whitespace-free
words, NFKD-expand each word, join with single spaces, title-case. -/
theorem clean_eq (s : PyStr) :
    clean_feeder_name s = pyTitle (pyJoinSp ((pySplit s).map pyNFKD)) := by
  unfold clean_feeder_name
  rw [pySplit_replace_nfkd, pySplit_pyStrip]

/-- `clean_feeder_name` with the leading `strip` absorbed. -/
theorem clean_eq₂ (s : PyStr) :
    clean_feeder_name s = pyTitle (pyJoinSp (pySplit (pyReplaceNbsp (pyNFKD s)))) := by
  rw [clean_eq, pySplit_replace_nfkd]

/-! ### Claim theorem C6 -/

/-- C6: `clean_feeder_name` is idempotent: normalising a feeder name twice
gives the same result as normalising it once, for every input string (over
the modelled character set). -/
theorem C6_clean_idempotent (s : PyStr) :
    clean_feeder_name (clean_feeder_name s) = clean_feeder_name s := by
  rw [clean_eq s]
  have hws : ∀ w ∈ (pySplit s).map pyNFKD,
      (w ≠ [] ∧ ∀ a ∈ w, pyIsSpace a = false) ∧ ∀ a ∈ w, nfkdChar a = [a] := by
    intro w hw
    obtain ⟨w0, hw0, rfl⟩ := List.mem_map.1 hw
    obtain ⟨hne, hns⟩ := pySplit_words hw0
    refine ⟨⟨fun h => hne (pyNFKD_eq_nil_iff.1 h), ?_⟩, ?_⟩
    · intro a ha
      obtain ⟨c, hc, hac⟩ := mem_pyNFKD ha
      exact nfkdChar_not_space (hns c hc) a hac
    · intro a ha
      obtain ⟨c, hc, hac⟩ := mem_pyNFKD ha
      exact nfkdChar_nfkdChar hac
  rw [clean_eq (pyTitle (pyJoinSp ((pySplit s).map pyNFKD)))]
  rw [pyTitle_joinSp ((pySplit s).map pyNFKD)]
  have hys : ∀ w ∈ ((pySplit s).map pyNFKD).map pyTitle,
      (w ≠ [] ∧ ∀ a ∈ w, pyIsSpace a = false) ∧ ∀ a ∈ w, nfkdChar a = [a] := by
    intro w hw
    obtain ⟨w1, hw1, rfl⟩ := List.mem_map.1 hw
    obtain ⟨⟨hne, hns⟩, hfix⟩ := hws w1 hw1
    refine ⟨⟨?_, ?_⟩, ?_⟩
    · intro h
      apply hne
      have h2 : w1.length = 0 := by
        rw [← length_pyTitleAux false w1, show pyTitleAux false w1 = pyTitle w1 from rfl, h]
        rfl
      exact List.length_eq_zero.1 h2
    · intro a ha
      obtain ⟨c, hc, b', rfl⟩ := mem_pyTitleAux ha
      rw [pyIsSpace_titleChar]
      exact hns c hc
    · intro a ha
      obtain ⟨c, hc, b', rfl⟩ := mem_pyTitleAux ha
      exact nfkdFixed_titleChar b' (hfix c hc)
  rw [pySplit_pyJoinSp (fun w hw => (hys w hw).1)]
  rw [show (((pySplit s).map pyNFKD).map pyTitle).map pyNFKD =
      ((pySplit s).map pyNFKD).map pyTitle from by
    have : ∀ w ∈ ((pySplit s).map pyNFKD).map pyTitle, pyNFKD w = w :=
      fun w hw => pyNFKD_fixed ((hys w hw).2)
    calc (((pySplit s).map pyNFKD).map pyTitle).map pyNFKD
        = (((pySplit s).map pyNFKD).map pyTitle).map id := List.map_congr_left this
      _ = ((pySplit s).map pyNFKD).map pyTitle := List.map_id _]
  rw [← pyTitle_joinSp]
  exact pyTitleAux_idem _ false

/-! ### Lower-case equality is respected by every pipeline stage -/

theorem nfkd_lower : ∀ {u v : PyStr}, u.map toLowerCp = v.map toLowerCp →
    (pyNFKD u).map toLowerCp = (pyNFKD v).map toLowerCp := by
  intro u
  induction u with
  | nil =>
    intro v h
    rw [show v = [] from by
      rcases v with - | ⟨c, v⟩
      · rfl
      · exact absurd h.symm (by simp)]
  | cons c u ih =>
    intro v h
    rcases v with - | ⟨c', v⟩
    · exact absurd h (by simp)
    · simp only [List.map_cons, List.cons.injEq] at h
      rw [pyNFKD_cons, pyNFKD_cons, List.map_append, List.map_append,
        nfkdChar_lower h.1, ih h.2]

theorem replace_lower : ∀ {u v : PyStr}, u.map toLowerCp = v.map toLowerCp →
    (pyReplaceNbsp u).map toLowerCp = (pyReplaceNbsp v).map toLowerCp := by
  intro u
  induction u with
  | nil =>
    intro v h
    rw [show v = [] from by
      rcases v with - | ⟨c, v⟩
      · rfl
      · exact absurd h.symm (by simp)]
  | cons c u ih =>
    intro v h
    rcases v with - | ⟨c', v⟩
    · exact absurd h (by simp)
    · simp only [List.map_cons, List.cons.injEq] at h
      show toLowerCp (if c = 160 then 32 else c) :: (pyReplaceNbsp u).map toLowerCp = _
      rw [replaceChar_lower h.1, ih h.2]
      rfl

theorem headW_map_lower (R : List PyStr) :
    headW (R.map (List.map toLowerCp)) = (headW R).map toLowerCp := by
  cases R <;> rfl

theorem tailW_map_lower (R : List PyStr) :
    tailW (R.map (List.map toLowerCp)) = (tailW R).map (List.map toLowerCp) := by
  cases R <;> rfl

theorem rawSplit_lower : ∀ {u v : PyStr}, u.map toLowerCp = v.map toLowerCp →
    (rawSplit u).map (List.map toLowerCp) = (rawSplit v).map (List.map toLowerCp) := by
  intro u
  induction u with
  | nil =>
    intro v h
    rw [show v = [] from by
      rcases v with - | ⟨c, v⟩
      · rfl
      · exact absurd h.symm (by simp)]
  | cons c u ih =>
    intro v h
    rcases v with - | ⟨c', v⟩
    · exact absurd h (by simp)
    · simp only [List.map_cons, List.cons.injEq] at h
      have hsp : pyIsSpace c = pyIsSpace c' := pyIsSpace_eq_of_lower h.1
      rw [rawSplit_cons, rawSplit_cons]
      by_cases hs : pyIsSpace c = true
      · rw [stepSplit_space hs, stepSplit_space (hsp ▸ hs)]
        simp only [List.map_cons, List.map_nil]
        rw [ih h.2]
      · have hcf : pyIsSpace c = false := Bool.eq_false_iff.2 hs
        rw [stepSplit_nonspace hcf, stepSplit_nonspace (hsp ▸ hcf)]
        simp only [List.map_cons, List.cons.injEq]
        refine ⟨⟨h.1, ?_⟩, ?_⟩
        · rw [← headW_map_lower, ← headW_map_lower, ih h.2]
        · rw [← tailW_map_lower, ← tailW_map_lower, ih h.2]

theorem pySplit_lower {u v : PyStr} (h : u.map toLowerCp = v.map toLowerCp) :
    (pySplit u).map (List.map toLowerCp) = (pySplit v).map (List.map toLowerCp) := by
  unfold pySplit
  have hfm : ∀ R : List PyStr, (R.filter (fun w => !w.isEmpty)).map (List.map toLowerCp) =
      (R.map (List.map toLowerCp)).filter (fun w => !w.isEmpty) := by
    intro R
    rw [List.filter_map]
    congr 1
    apply List.filter_congr
    intro w _
    show (!w.isEmpty) = (!(w.map toLowerCp).isEmpty)
    cases w <;> rfl
  rw [hfm, hfm, rawSplit_lower h]

theorem map_lower_joinSp (ws : List PyStr) :
    (pyJoinSp ws).map toLowerCp = pyJoinSp (ws.map (List.map toLowerCp)) := by
  induction ws with
  | nil => rfl
  | cons w ws ih =>
    rcases ws with - | ⟨x, ws⟩
    · rfl
    · show (w ++ 32 :: pyJoinSp (x :: ws)).map toLowerCp = _
      rw [List.map_append, List.map_cons, ih]
      rfl

theorem pyTitleAux_lower : ∀ {u v : PyStr}, u.map toLowerCp = v.map toLowerCp →
    ∀ b, pyTitleAux b u = pyTitleAux b v := by
  intro u
  induction u with
  | nil =>
    intro v h b
    rw [show v = [] from by
      rcases v with - | ⟨c, v⟩
      · rfl
      · exact absurd h.symm (by simp)]
  | cons c u ih =>
    intro v h b
    rcases v with - | ⟨c', v⟩
    · exact absurd h (by simp)
    · simp only [List.map_cons, List.cons.injEq] at h
      rw [pyTitleAux_cons, pyTitleAux_cons, titleChar_eq_of_lower h.1,
        isAlphaCp_eq_of_lower h.1, ih h.2]

theorem clean_of_lower {a b : PyStr} (h : a.map toLowerCp = b.map toLowerCp) :
    clean_feeder_name a = clean_feeder_name b := by
  rw [clean_eq₂ a, clean_eq₂ b]
  apply pyTitleAux_lower
  rw [map_lower_joinSp, map_lower_joinSp]
  exact congrArg pyJoinSp (pySplit_lower (replace_lower (nfkd_lower h)))

/-! ### Claim theorem C7 -/

/-- C7: two raw feeder names that differ only in ASCII case, or only in
whitespace runs (so they have the same whitespace-separated words,
non-breaking spaces counting as whitespace), or only in Unicode
compatibility (NFKD) form, normalise to the same canonical value; in
particular the spec's concrete pair with a doubled space versus a
no-break space. -/
theorem C7_clean_respects_equivalences :
    (∀ a b : PyStr, a.map toLowerCp = b.map toLowerCp →
      clean_feeder_name a = clean_feeder_name b) ∧
    (∀ a b : PyStr, pySplit a = pySplit b →
      clean_feeder_name a = clean_feeder_name b) ∧
    (∀ a b : PyStr, pyNFKD a = pyNFKD b →
      clean_feeder_name a = clean_feeder_name b) ∧
    clean_feeder_name (strToCP "Bombo  1") = clean_feeder_name (strToCP "Bombo\u00A01") := by
  refine ⟨fun a b h => clean_of_lower h, ?_, ?_, by decide⟩
  · intro a b h
    rw [clean_eq a, clean_eq b, h]
  · intro a b h
    rw [clean_eq₂ a, clean_eq₂ b, h]

/-- C7, witness: the three equivalences applied to concrete pairs — a
case-variant pair, a whitespace-variant pair, and an NFKD-variant pair
(the ﬁ ligature). -/
theorem C7_clean_respects_equivalences_witness :
    clean_feeder_name (strToCP "KOLOLO") = clean_feeder_name (strToCP "kololo") ∧
    clean_feeder_name (strToCP " Bombo  1 ") = clean_feeder_name (strToCP "Bombo 1") ∧
    clean_feeder_name (strToCP "ﬁx") = clean_feeder_name (strToCP "fix") :=
  ⟨C7_clean_respects_equivalences.1 _ _ (by decide),
    C7_clean_respects_equivalences.2.1 _ _ (by decide),
    C7_clean_respects_equivalences.2.2.1 _ _ (by decide)⟩

end SpecProof
